import Mathlib

/-!
Shallow embedding of the core of the `jimbo` hand analyzer
(`src/core/{card,hand,joker,scoring,solver,simulator}.rs`) together with
proofs about the embedded definitions.

Modelling conventions:
* Rust `u32` / `i32` / `u64` machine integers are modelled as `Nat` / `Int`
  with an explicit reduction modulo `2^32` (resp. a wrap into
  `[-2^31, 2^31)`, reduction modulo `2^64`) exactly at the operations where
  the Rust code performs unchecked machine arithmetic.
* Rust `f32`/`f64` values appearing in the score engine (the polychrome
  `mult_multiplier` and the `as u32` cast) and in the statistics (`f64`
  means and percentile indices) are modelled as exact rationals `ℚ`.
  Every property proved below is insensitive to the difference between
  exact rational arithmetic and IEEE rounding.
* Fallible or stateful pieces (the recursive combination generator with its
  `current`/`results` accumulators, the RNG threading) become explicit
  state passing.
-/

namespace Jimbo

/-! ## Card model (`src/core/card.rs`) -/

/-- Playing card rank (`card.rs`, `enum Rank`). -/
inductive Rank where
  | Two | Three | Four | Five | Six | Seven | Eight | Nine | Ten
  | Jack | Queen | King | Ace
deriving DecidableEq

/-- Playing card suit (`card.rs`, `enum Suit`). -/
inductive Suit where
  | Hearts | Diamonds | Clubs | Spades
deriving DecidableEq

/-- Card enhancement (`card.rs`, `enum Enhancement`). -/
inductive Enhancement where
  | None | Bonus | Mult | Wild | Glass | Steel | Stone | Gold | Lucky
deriving DecidableEq

/-- Card edition (`card.rs`, `enum Edition`). -/
inductive Edition where
  | None | Foil | Holographic | Polychrome | Negative
deriving DecidableEq

/-- Card seal (`card.rs`, `enum Seal`). -/
inductive Seal where
  | Gold | Red | Blue | Purple
deriving DecidableEq

/-- A playing card with optional modifications (`card.rs`, `struct Card`). -/
structure Card where
  rank : Rank
  suit : Suit
  enhancement : Enhancement
  edition : Edition
  -- the source field is named `seal`; that word is a command keyword in
  -- this Lean environment, so the field carries a prime
  seal' : Option Seal
deriving DecidableEq

/-- Creates a new basic card (`Card::new`). -/
def Card.new (rank : Rank) (suit : Suit) : Card :=
  ⟨rank, suit, Enhancement.None, Edition.None, Option.none⟩

/-- Creates a card with an enhancement (`Card::with_enhancement`). -/
def Card.with_enhancement (c : Card) (enhancement : Enhancement) : Card :=
  ⟨c.rank, c.suit, enhancement, c.edition, c.seal'⟩

/-- Creates a card with an edition (`Card::with_edition`). -/
def Card.with_edition (c : Card) (edition : Edition) : Card :=
  ⟨c.rank, c.suit, c.enhancement, edition, c.seal'⟩

/-- Creates a card with a seal (`Card::with_seal`). -/
def Card.with_seal (c : Card) (s : Seal) : Card :=
  ⟨c.rank, c.suit, c.enhancement, c.edition, some s⟩

/-- Base chip value of a card (`Card::base_chips`); a `u32` in the source,
    always between 2 and 11 so no modular reduction is needed. -/
def Card.base_chips (c : Card) : Nat :=
  match c.rank with
  | Rank.Two => 2
  | Rank.Three => 3
  | Rank.Four => 4
  | Rank.Five => 5
  | Rank.Six => 6
  | Rank.Seven => 7
  | Rank.Eight => 8
  | Rank.Nine => 9
  | Rank.Ten | Rank.Jack | Rank.Queen | Rank.King => 10
  | Rank.Ace => 11

/-- Numeric value for rank comparison (`Rank::value`), a `u8` in the source. -/
def Rank.value (r : Rank) : Nat :=
  match r with
  | Rank.Two => 2
  | Rank.Three => 3
  | Rank.Four => 4
  | Rank.Five => 5
  | Rank.Six => 6
  | Rank.Seven => 7
  | Rank.Eight => 8
  | Rank.Nine => 9
  | Rank.Ten => 10
  | Rank.Jack => 11
  | Rank.Queen => 12
  | Rank.King => 13
  | Rank.Ace => 14

/-! ## Hand types and evaluation (`src/core/hand.rs`) -/

/-- Poker hand type (`hand.rs`, `enum HandType`). -/
inductive HandType where
  | HighCard | Pair | TwoPair | ThreeOfAKind | Straight | Flush
  | FullHouse | FourOfAKind | StraightFlush | FiveOfAKind | FlushHouse
  | FlushFive
deriving DecidableEq

/-- Base chips of a hand type (`HandType::base_chips`). -/
def HandType.base_chips (t : HandType) : Nat :=
  match t with
  | HandType.HighCard => 5
  | HandType.Pair => 10
  | HandType.TwoPair => 20
  | HandType.ThreeOfAKind => 30
  | HandType.Straight => 30
  | HandType.Flush => 35
  | HandType.FullHouse => 40
  | HandType.FourOfAKind => 60
  | HandType.StraightFlush => 100
  | HandType.FiveOfAKind => 120
  | HandType.FlushHouse => 140
  | HandType.FlushFive => 160

/-- Base multiplier of a hand type (`HandType::base_mult`). -/
def HandType.base_mult (t : HandType) : Nat :=
  match t with
  | HandType.HighCard => 1
  | HandType.Pair => 2
  | HandType.TwoPair => 2
  | HandType.ThreeOfAKind => 3
  | HandType.Straight => 4
  | HandType.Flush => 4
  | HandType.FullHouse => 4
  | HandType.FourOfAKind => 7
  | HandType.StraightFlush => 8
  | HandType.FiveOfAKind => 12
  | HandType.FlushHouse => 14
  | HandType.FlushFive => 16

/-- A collection of cards forming a playable hand (`hand.rs`, `struct Hand`). -/
structure Hand where
  cards : List Card
deriving DecidableEq

/-- Creates a new hand (`Hand::new`). -/
def Hand.new (cards : List Card) : Hand := ⟨cards⟩

@[simp] lemma Hand.new_cards (cards : List Card) : (Hand.new cards).cards = cards := rfl

/-- Checks if all cards share the suit of the first card (`Hand::is_flush`).
    The source indexes `cards[0]` only after the length guard, so the `[]`
    branch below is unreachable. -/
def Hand.is_flush (h : Hand) : Bool :=
  if h.cards.length < 5 then false
  else
    match h.cards with
    | [] => false
    | first :: _ => h.cards.all (fun card => decide (card.suit = first.suit))

/-- One step of the `values.windows(5)` scan in `Hand::is_straight`:
    checks whether some window of five consecutive entries `w` of the sorted,
    deduplicated value list satisfies `w[4] - w[0] == 4`. -/
def has_window_run : List Nat → Bool
  | a :: b :: c :: d :: e :: rest =>
      (e - a == 4) || has_window_run (b :: c :: d :: e :: rest)
  | _ => false

/-- The `values` vector of `Hand::is_straight` after `sort_unstable` and
    `dedup`: the sorted list of distinct rank values.  Rust's `sort_unstable`
    followed by consecutive `dedup` produces the sorted duplicate-free list,
    which is what `insertionSort` followed by `List.dedup` produces. -/
def Hand.sorted_values (h : Hand) : List Nat :=
  ((h.cards.map (fun c => c.rank.value)).insertionSort (· ≤ ·)).dedup

/-- Checks if the cards form a straight (`Hand::is_straight`); the `values`
    local of the source is the named definition `sorted_values` above. -/
def Hand.is_straight (h : Hand) : Bool :=
  if h.cards.length < 5 then false
  else if h.sorted_values.length < 5 then false
  else if has_window_run h.sorted_values then true
  else
    h.sorted_values.contains 14 && h.sorted_values.contains 2 &&
      h.sorted_values.contains 3 && h.sorted_values.contains 4 &&
      h.sorted_values.contains 5

/-- The thirteen ranks, used to read off the `rank_counts` HashMap: all hand
    classification in `hand.rs` consumes the map only through `values()`
    aggregates, which coincide with aggregating the per-rank counts below
    (a rank absent from the map has count 0 and never affects `max`, a
    `== 2`/`== 3` filter, or an `any` over nonzero counts). -/
def all_ranks : List Rank :=
  [Rank.Two, Rank.Three, Rank.Four, Rank.Five, Rank.Six, Rank.Seven,
   Rank.Eight, Rank.Nine, Rank.Ten, Rank.Jack, Rank.Queen, Rank.King,
   Rank.Ace]

/-- Occurrence count of one rank (`Hand::rank_counts` table entry). -/
def Hand.rank_count (h : Hand) (r : Rank) : Nat :=
  h.cards.countP (fun c => decide (c.rank = r))

/-- Value of `rank_counts.values().max().copied().unwrap_or(0)`. -/
def Hand.max_rank_count (h : Hand) : Nat :=
  (all_ranks.map h.rank_count).foldr max 0

/-- Value of `rank_counts.values().filter(|&&count| count == 2).count()`. -/
def Hand.pair_count (h : Hand) : Nat :=
  all_ranks.countP (fun r => decide (h.rank_count r = 2))

/-- Checks if the hand is a full house (`Hand::is_full_house`). -/
def Hand.is_full_house (h : Hand) : Bool :=
  (all_ranks.any (fun r => decide (h.rank_count r = 3))) &&
    (all_ranks.any (fun r => decide (h.rank_count r = 2)))

/-- Checks for special Balatro-specific hand types
    (`Hand::check_special_hands`; its `_is_straight` parameter is unused in
    the source and omitted here). -/
def Hand.check_special_hands (h : Hand) (is_flush : Bool) : Option HandType :=
  if h.max_rank_count ≥ 5 && is_flush then some HandType.FlushFive
  else if is_flush && h.is_full_house then some HandType.FlushHouse
  else if h.max_rank_count ≥ 5 then some HandType.FiveOfAKind
  else none

/-- Checks for standard poker hand types (`Hand::check_standard_hands`). -/
def Hand.check_standard_hands (h : Hand) (is_flush is_straight : Bool) :
    HandType :=
  if is_straight && is_flush then HandType.StraightFlush
  else if h.max_rank_count = 4 then HandType.FourOfAKind
  else if h.is_full_house then HandType.FullHouse
  else if is_flush then HandType.Flush
  else if is_straight then HandType.Straight
  else if h.max_rank_count = 3 then HandType.ThreeOfAKind
  else if h.pair_count ≥ 2 then HandType.TwoPair
  else if h.max_rank_count = 2 then HandType.Pair
  else HandType.HighCard

/-- Evaluates the hand to determine its type (`Hand::evaluate`). -/
def Hand.evaluate (h : Hand) : HandType :=
  if h.cards.isEmpty then HandType.HighCard
  else
    match h.check_special_hands h.is_flush with
    | some hand_type => hand_type
    | none => h.check_standard_hands h.is_flush h.is_straight

/-! ## Jokers (`src/core/joker.rs`) -/

/-- Joker kind (`joker.rs`, `enum JokerKind`). -/
inductive JokerKind where
  | Joker | GreedyJoker | LustyJoker | WrathfulJoker | GluttonousJoker
  | JollyJoker | ZanyJoker | MadJoker | CrazyJoker | DrollJoker | Baron
deriving DecidableEq

/-- Joker edition (`joker.rs`, `enum JokerEdition`). -/
inductive JokerEdition where
  | None | Foil | Holographic | Polychrome | Negative
deriving DecidableEq

/-- Joker rarity (`joker.rs`, `enum JokerRarity`). -/
inductive JokerRarity where
  | Common | Uncommon | Rare | Legendary
deriving DecidableEq

/-- A joker and its state (`joker.rs`, `struct Joker`). -/
structure Joker where
  kind : JokerKind
  edition : JokerEdition
  rarity : JokerRarity
deriving DecidableEq

/-- Creates a new joker (`Joker::new`). -/
def Joker.new (kind : JokerKind) : Joker :=
  ⟨kind, JokerEdition.None, JokerRarity.Common⟩

/-- Flat chip bonus of a joker kind (`JokerKind::base_chips`): the source
    match has only the wildcard arm returning 0 (an `i32`). -/
def JokerKind.base_chips (_k : JokerKind) : Int := 0

/-- Flat mult bonus of a joker kind (`JokerKind::base_mult`), an `i32`. -/
def JokerKind.base_mult (k : JokerKind) : Int :=
  match k with
  | JokerKind.Joker => 4
  | _ => 0

/-! ## Score engine (`src/core/scoring.rs`) -/

/-- Modulus of `u32` arithmetic. -/
def u32_mod : Nat := 4294967296

/-- Modulus of `u64` arithmetic. -/
def u64_mod : Nat := 18446744073709551616

/-- Wraps an integer into the `i32` range, modelling Rust's (release-mode)
    two's-complement `i32` addition. -/
def wrap32 (z : Int) : Int := (z + 2147483648) % 4294967296 - 2147483648

/-- Rust's `u32::saturating_add_signed`: the integer sum clamped into
    `[0, u32::MAX]`. -/
def u32_saturating_add_signed (u : Nat) (i : Int) : Nat :=
  (min (max ((u : Int) + i) 0) 4294967295).toNat

/-- Rust's `expr as u32` cast applied to a nonnegative float expression:
    truncation toward zero with saturation into `[0, u32::MAX]`
    (the float value itself is modelled as an exact rational). -/
def f32_as_u32 (q : ℚ) : Nat := (min (max ⌊q⌋ 0) 4294967295).toNat

/-- Detailed score breakdown (`scoring.rs`, `struct ScoreBreakdown`);
    `joker_mult_multiplier` is an `f32` in the source, modelled as `ℚ`. -/
structure ScoreBreakdown where
  base_chips : Nat
  base_mult : Nat
  card_chips : Nat
  card_mult : Nat
  joker_chips : Int
  joker_mult : Int
  joker_mult_multiplier : ℚ
deriving DecidableEq

/-- Result of a scoring calculation (`scoring.rs`, `struct ScoreResult`). -/
structure ScoreResult where
  hand_type : HandType
  chips : Nat
  mult : Nat
  score : Nat
  breakdown : ScoreBreakdown
deriving DecidableEq

/-- Loop body of `ScoreCalculator::calculate_card_bonuses` for one card.
    The accumulators are `u32` and every `+=` is an unchecked machine
    addition, hence the reduction modulo `2^32` at each step. -/
def card_bonus_step (cm : Nat × Nat) (card : Card) : Nat × Nat :=
  let chips := (cm.1 + card.base_chips) % u32_mod
  let cm1 :=
    match card.enhancement with
    | Enhancement.Bonus => ((chips + 30) % u32_mod, cm.2)
    | Enhancement.Mult => (chips, (cm.2 + 4) % u32_mod)
    | Enhancement.Stone => ((chips + 50) % u32_mod, cm.2)
    | _ => (chips, cm.2)
  match card.edition with
  | Edition.Foil => ((cm1.1 + 50) % u32_mod, cm1.2)
  | Edition.Holographic => (cm1.1, (cm1.2 + 10) % u32_mod)
  | _ => cm1

/-- Chip and mult bonuses from cards
    (`ScoreCalculator::calculate_card_bonuses`). -/
def calculate_card_bonuses (cards : List Card) : Nat × Nat :=
  cards.foldl card_bonus_step (0, 0)

/-- Loop body of `ScoreCalculator::calculate_joker_bonuses` for one joker:
    `i32` chip and mult accumulators (wrapped two's-complement adds) and the
    `f32` running `mult_multiplier` (exact `ℚ` model, multiplied by `1.5`
    per Polychrome joker). -/
def joker_bonus_step (acc : Int × Int × ℚ) (joker : Joker) : Int × Int × ℚ :=
  let chips := wrap32 (acc.1 + joker.kind.base_chips)
  let mult := wrap32 (acc.2.1 + joker.kind.base_mult)
  match joker.edition with
  | JokerEdition.Foil => (wrap32 (chips + 50), mult, acc.2.2)
  | JokerEdition.Holographic => (chips, wrap32 (mult + 10), acc.2.2)
  | JokerEdition.Polychrome => (chips, mult, acc.2.2 * (3 / 2 : ℚ))
  | _ => (chips, mult, acc.2.2)

/-- Bonuses from jokers (`ScoreCalculator::calculate_joker_bonuses`). -/
def calculate_joker_bonuses (jokers : List Joker) : Int × Int × ℚ :=
  jokers.foldl joker_bonus_step (0, 0, 1)

/-- The `total_chips` local of `ScoreCalculator::calculate`:
    `(base_chips + card_chips).saturating_add_signed(joker_chips)`, where the
    inner `+` is an unchecked `u32` addition. -/
def total_chips_calc (jokers : List Joker) (hand : Hand) : Nat :=
  u32_saturating_add_signed
    ((hand.evaluate.base_chips + (calculate_card_bonuses hand.cards).1) % u32_mod)
    (calculate_joker_bonuses jokers).1

/-- The `total_mult` local of `ScoreCalculator::calculate`. -/
def total_mult_calc (jokers : List Joker) (hand : Hand) : Nat :=
  u32_saturating_add_signed
    ((hand.evaluate.base_mult + (calculate_card_bonuses hand.cards).2) % u32_mod)
    (calculate_joker_bonuses jokers).2.1

/-- The `final_mult` local of `ScoreCalculator::calculate`:
    `(total_mult as f32 * joker_mult_multiplier) as u32`. -/
def final_mult_calc (jokers : List Joker) (hand : Hand) : Nat :=
  f32_as_u32 ((total_mult_calc jokers hand : ℚ) * (calculate_joker_bonuses jokers).2.2)

/-- Calculates the score for a hand (`ScoreCalculator::calculate`); the
    calculator's owned joker list is passed explicitly.  The final score is
    the `u64` product `(total_chips as u64) * (final_mult as u64)`. -/
def ScoreCalculator.calculate (jokers : List Joker) (hand : Hand) : ScoreResult :=
  ⟨hand.evaluate,
   total_chips_calc jokers hand,
   final_mult_calc jokers hand,
   (total_chips_calc jokers hand * final_mult_calc jokers hand) % u64_mod,
   ⟨hand.evaluate.base_chips, hand.evaluate.base_mult,
    (calculate_card_bonuses hand.cards).1, (calculate_card_bonuses hand.cards).2,
    (calculate_joker_bonuses jokers).1, (calculate_joker_bonuses jokers).2.1,
    (calculate_joker_bonuses jokers).2.2⟩⟩

/-! ## Solver (`src/core/solver.rs`) -/

/-- Result from the solver (`solver.rs`, `struct SolverResult`). -/
structure SolverResult where
  best_hand : Hand
  best_score : Option ScoreResult
  alternatives : List (Hand × ScoreResult)
deriving DecidableEq

/-- Recursive combination generator
    (`Solver::generate_combinations_recursive`).  The `start` cursor of the
    source is replaced by the suffix `cards.drop start` of the card slice,
    the `current` push/pop pair by passing `current ++ [c]` to the recursive
    call, and the `results` output vector by the returned list: the `for i in
    start..cards.len()` loop contributes, in order, the recursion on the
    suffix after index `i` with `cards[i]` appended to `current`, which is
    exactly the `++` of the two recursive calls below (the second call
    re-checks `current.len() == size`, which is false in that branch). -/
def generate_combinations_recursive (size : Nat) :
    List Card → List Card → List (List Card)
  | [], current => if current.length = size then [current] else []
  | c :: rest, current =>
      if current.length = size then [current]
      else
        generate_combinations_recursive size rest (current ++ [c]) ++
          generate_combinations_recursive size rest current

/-- Generates all combinations of a given size (`Solver::generate_combinations`). -/
def generate_combinations (cards : List Card) (size : Nat) : List (List Card) :=
  generate_combinations_recursive size cards []

/-- The `results` vector of `Solver::solve` before sorting: for every
    `hand_size in 1..=5.min(cards.len())`, every combination of that size,
    in generation order, paired with its score. -/
def solve_results (jokers : List Joker) (cards : List Card) :
    List (Hand × ScoreResult) :=
  (List.range (min 5 cards.length)).flatMap
    (fun i =>
      (generate_combinations cards (i + 1)).map
        (fun combo => (Hand.new combo, ScoreCalculator.calculate jokers (Hand.new combo))))

/-- The descending-score ordering used by
    `results.sort_by(|a, b| b.1.score.cmp(&a.1.score))`. -/
def score_ge (a b : Hand × ScoreResult) : Prop := b.2.score ≤ a.2.score

instance : DecidableRel score_ge := fun a b => Nat.decLe b.2.score a.2.score

instance : IsTotal (Hand × ScoreResult) score_ge :=
  ⟨fun a b => (Nat.le_total b.2.score a.2.score).imp id id⟩

instance : IsTrans (Hand × ScoreResult) score_ge :=
  ⟨fun _ _ _ hab hbc => Nat.le_trans hbc hab⟩

/-- The `results` vector of `Solver::solve` after the stable
    `sort_by(|a, b| b.1.score.cmp(&a.1.score))`.  Rust's `sort_by` is a
    stable sort; it is modelled by the (stable) insertion sort, which agrees
    with every stable sort by the same total preorder. -/
def solve_sorted (jokers : List Joker) (cards : List Card) :
    List (Hand × ScoreResult) :=
  (solve_results jokers cards).insertionSort score_ge

/-- Finds the best play from the given cards (`Solver::solve`); the
    calculator's joker list is passed explicitly. -/
def Solver.solve (jokers : List Joker) (cards : List Card) : SolverResult :=
  if cards.isEmpty then ⟨Hand.new [], Option.none, []⟩
  else
    ⟨(((solve_sorted jokers cards).head?).map Prod.fst).getD (Hand.new []),
     ((solve_sorted jokers cards).head?).map Prod.snd,
     ((solve_sorted jokers cards).drop 1).take 3⟩

/-- Specification-side enumeration of the `k`-element sub-combinations of a
    list, in lexicographic order by source position with the first position
    outermost: every combination containing the head (head first) precedes
    every combination avoiding it.  Used to state and prove what order
    `generate_combinations` produces. -/
def sub_combos {α : Type} : Nat → List α → List (List α)
  | 0, _ => [[]]
  | _ + 1, [] => []
  | k + 1, x :: xs =>
      (sub_combos k xs).map (fun c => x :: c) ++ sub_combos (k + 1) xs

/-! ## Simulator (`src/core/simulator.rs`) -/

/-- Configuration for a simulation run (`simulator.rs`,
    `struct SimulationConfig`). -/
structure SimulationConfig where
  deck : List Card
  hand_size : Nat
  num_runs : Nat
  seed : Option Nat
deriving DecidableEq

/-- Statistics from a simulation run (`simulator.rs`,
    `struct SimulationResult`); `mean_score` is an `f64` in the source,
    modelled as an exact rational. -/
structure SimulationResult where
  num_runs : Nat
  mean_score : ℚ
  median_score : Nat
  min_score : Nat
  max_score : Nat
  percentile_25 : Nat
  percentile_75 : Nat
  percentile_95 : Nat
deriving DecidableEq

/-- Model of the external `rand_chacha::ChaCha8Rng` generator state.  The
    crate is an external collaborator, not part of this repository, so the
    stream is modelled by a deterministic stand-in (a 64-bit linear
    congruential step): every property proved below depends only on the
    generator being a pure deterministic function of how it was created,
    never on the concrete output values. -/
structure Rng where
  state : Nat
deriving DecidableEq

/-- Model of `ChaCha8Rng::seed_from_u64`: a deterministic function of the
    seed alone. -/
def Rng.seed_from_u64 (s : Nat) : Rng :=
  ⟨(s * 6364136223846793005 + 1442695040888963407) % u64_mod⟩

/-- Model of `ChaCha8Rng::from_entropy`: consumes ambient OS entropy, which
    is made explicit as a parameter. -/
def Rng.from_entropy (entropy : Nat) : Rng := ⟨entropy % u64_mod⟩

/-- One step of the modelled generator: next raw 64-bit output and the
    advanced state. -/
def Rng.next (r : Rng) : Nat × Rng :=
  let s := (r.state * 6364136223846793005 + 1442695040888963407) % u64_mod
  (s, ⟨s⟩)

/-- Model of a bounded sample `gen_range(0..bound)` as used by the shuffle. -/
def Rng.gen_range (r : Rng) (bound : Nat) : Nat × Rng :=
  let n := r.next
  (n.1 % bound, n.2)

/-- Swaps two positions of a list (out-of-range indices leave the list
    unchanged; the shuffle only uses in-range indices). -/
def list_swap {α : Type} (l : List α) (i j : Nat) : List α :=
  match l[i]?, l[j]? with
  | some x, some y => (l.set i y).set j x
  | _, _ => l

/-- Fisher-Yates loop of the external `SliceRandom::shuffle`: for `i` from
    `len - 1` down to `1`, swap position `i` with a sampled position in
    `0..=i`.  The counter below is `i` itself. -/
def shuffle_go (l : List Card) (rng : Rng) : Nat → List Card × Rng
  | 0 => (l, rng)
  | i + 1 =>
      let g := rng.gen_range (i + 2)
      shuffle_go (list_swap l (i + 1) g.1) g.2 i

/-- Model of `deck_copy.shuffle(rng)` (external `rand` crate): a
    deterministic function of the deck and the generator state. -/
def shuffle (deck : List Card) (rng : Rng) : List Card × Rng :=
  shuffle_go deck rng (deck.length - 1)

/-- Draws a random hand from the deck (`Simulator::draw_random_hand`). -/
def draw_random_hand (deck : List Card) (hand_size : Nat) (rng : Rng) :
    List Card × Rng :=
  let s := shuffle deck rng
  (s.1.take hand_size, s.2)

/-- Creates a deterministic or entropy-seeded RNG (`Simulator::create_rng`);
    the ambient entropy consumed in the `None` arm is an explicit parameter. -/
def create_rng (entropy : Nat) : Option Nat → Rng
  | some s => Rng.seed_from_u64 s
  | none => Rng.from_entropy entropy

/-- Percentile of a sorted score list (`Simulator::percentile`): element at
    index `((len as f64 - 1.0) * p) as usize` (the `f64` index computation is
    modelled exactly; for the percentile arguments the simulator uses and any
    realistic list length the `f64` computation is exact, and the `as usize`
    truncation of a nonnegative value is the floor). -/
def percentile (sorted_scores : List Nat) (p : ℚ) : Nat :=
  if sorted_scores.isEmpty then 0
  else sorted_scores.getD (Int.toNat ⌊((sorted_scores.length : ℚ) - 1) * p⌋) 0

/-- Statistics from collected scores (`Simulator::calculate_statistics`).
    The `sort_unstable` of the source is any correct ascending sort; on a
    list of `u64` values every correct sort produces the same list.  The
    `u64` sum is reduced modulo `2^64`; its `f64` conversion and the division
    are modelled as exact rationals. -/
def calculate_statistics (scores : List Nat) (num_runs : Nat) :
    SimulationResult :=
  ⟨num_runs,
   (((scores.insertionSort (· ≤ ·)).sum % u64_mod : Nat) : ℚ) / (num_runs : ℚ),
   percentile (scores.insertionSort (· ≤ ·)) (1 / 2),
   (scores.insertionSort (· ≤ ·)).headD 0,
   (scores.insertionSort (· ≤ ·)).getLastD 0,
   percentile (scores.insertionSort (· ≤ ·)) (1 / 4),
   percentile (scores.insertionSort (· ≤ ·)) (3 / 4),
   percentile (scores.insertionSort (· ≤ ·)) (19 / 20)⟩

/-- One score record of the `for _ in 0..config.num_runs` loop of
    `Simulator::simulate`: draw, solve, record `best_score.score` or 0. -/
def run_scores (jokers : List Joker) (deck : List Card) (hand_size : Nat) :
    Nat → Rng → List Nat
  | 0, _ => []
  | n + 1, rng =>
      let dr := draw_random_hand deck hand_size rng
      let result := Solver.solve jokers dr.1
      (match result.best_score with
       | some s => s.score
       | none => 0) :: run_scores jokers deck hand_size n dr.2

/-- Runs a simulation (`Simulator::simulate`); the solver's joker list and
    the ambient entropy consumed when no seed is given are explicit
    parameters. -/
def Simulator.simulate (jokers : List Joker) (entropy : Nat)
    (config : SimulationConfig) : SimulationResult :=
  let rng := create_rng entropy config.seed
  let scores := run_scores jokers config.deck config.hand_size config.num_runs rng
  calculate_statistics scores config.num_runs

/-- Creates a standard 52-card deck (`create_standard_deck`). -/
def create_standard_deck : List Card :=
  (([Suit.Hearts, Suit.Diamonds, Suit.Clubs, Suit.Spades]).flatMap
    (fun suit => all_ranks.map (fun rank => Card.new rank suit)))

/-! ## Helper lemmas about the hand evaluator -/

lemma foldr_max_le {l : List Nat} {c : Nat} (h : ∀ x ∈ l, x ≤ c) :
    l.foldr max 0 ≤ c := by
  induction l with
  | nil => exact Nat.zero_le c
  | cons a t ih =>
      simp only [List.foldr_cons]
      exact max_le (h a (List.mem_cons_self a t))
        (ih fun x hx => h x (List.mem_cons_of_mem _ hx))

lemma le_foldr_max {l : List Nat} {x : Nat} (hx : x ∈ l) : x ≤ l.foldr max 0 := by
  induction l with
  | nil => cases hx
  | cons a t ih =>
      rcases List.mem_cons.mp hx with rfl | hmem
      · exact le_max_left _ _
      · exact le_trans (ih hmem) (le_max_right _ _)

lemma rank_count_le_length (h : Hand) (r : Rank) :
    h.rank_count r ≤ h.cards.length :=
  List.countP_le_length _

lemma max_rank_count_le_length (h : Hand) :
    h.max_rank_count ≤ h.cards.length := by
  refine foldr_max_le ?_
  intro x hx
  rcases List.mem_map.mp hx with ⟨r, _, rfl⟩
  exact rank_count_le_length h r

lemma rank_count_le_max (h : Hand) (r : Rank) :
    h.rank_count r ≤ h.max_rank_count := by
  refine le_foldr_max (List.mem_map.mpr ⟨r, ?_, rfl⟩)
  cases r <;> simp [all_ranks]

lemma two_rank_counts_le (h : Hand) {r₁ r₂ : Rank} (hne : r₁ ≠ r₂) :
    h.rank_count r₁ + h.rank_count r₂ ≤ h.cards.length := by
  have hsplit :=
    List.length_eq_countP_add_countP (fun c => decide (c.rank = r₁)) h.cards
  have hmono : h.rank_count r₂ ≤
      List.countP (fun c => decide ¬(decide (c.rank = r₁) = true)) h.cards := by
    refine List.countP_mono_left ?_
    intro x _ hx
    simp only [decide_eq_true_eq] at hx ⊢
    intro hx1
    exact hne (by rw [← hx1, hx])
  unfold Hand.rank_count at *
  simp only [decide_eq_true_eq] at hsplit hmono
  omega

lemma is_full_house_length {h : Hand} (hf : h.is_full_house = true) :
    5 ≤ h.cards.length := by
  unfold Hand.is_full_house at hf
  rw [Bool.and_eq_true, List.any_eq_true, List.any_eq_true] at hf
  obtain ⟨⟨r₃, _, h3⟩, ⟨r₂, _, h2⟩⟩ := hf
  simp only [decide_eq_true_eq] at h3 h2
  have hne : r₃ ≠ r₂ := fun hcontra => by rw [hcontra] at h3; omega
  have := two_rank_counts_le h hne
  omega

lemma is_flush_false_of_short {h : Hand} (hl : h.cards.length < 5) :
    h.is_flush = false := by
  unfold Hand.is_flush
  rw [if_pos hl]

lemma is_straight_false_of_short {h : Hand} (hl : h.cards.length < 5) :
    h.is_straight = false := by
  unfold Hand.is_straight
  rw [if_pos hl]

lemma isEmpty_perm {l₁ l₂ : List Card} (hp : l₁.Perm l₂) :
    l₁.isEmpty = l₂.isEmpty := by
  cases l₁ with
  | nil => cases l₂ with
    | nil => rfl
    | cons b t => exact absurd hp.length_eq (by simp)
  | cons a t => cases l₂ with
    | nil => exact absurd hp.length_eq (by simp)
    | cons b t' => rfl

lemma is_flush_perm {l₁ l₂ : List Card} (hp : l₁.Perm l₂) :
    (Hand.new l₁).is_flush = (Hand.new l₂).is_flush := by
  have hlen := hp.length_eq
  unfold Hand.is_flush
  simp only [Hand.new_cards]
  by_cases hshort : l₁.length < 5
  · rw [if_pos hshort, if_pos (by omega)]
  · rw [if_neg hshort, if_neg (by omega)]
    cases l₁ with
    | nil => simp at hshort
    | cons a t₁ =>
        cases l₂ with
        | nil => simp at hlen
        | cons b t₂ =>
            have hmem := fun x => hp.mem_iff (a := x)
            refine Bool.eq_iff_iff.mpr ?_
            simp only [List.all_eq_true, decide_eq_true_eq]
            constructor
            · intro hall x hx
              have hb : b.suit = a.suit :=
                hall b ((hmem b).mpr (List.mem_cons_self b t₂))
              rw [hall x ((hmem x).mpr hx), hb]
            · intro hall x hx
              have ha : a.suit = b.suit :=
                hall a ((hmem a).mp (List.mem_cons_self a t₁))
              rw [hall x ((hmem x).mp hx), ha]

lemma sorted_values_perm {l₁ l₂ : List Card} (hp : l₁.Perm l₂) :
    (Hand.new l₁).sorted_values = (Hand.new l₂).sorted_values := by
  unfold Hand.sorted_values Hand.new
  have hperm :
      ((l₁.map (fun c => c.rank.value)).insertionSort (· ≤ ·)).Perm
        ((l₂.map (fun c => c.rank.value)).insertionSort (· ≤ ·)) :=
    ((List.perm_insertionSort _ _).trans
      (hp.map (fun c => c.rank.value))).trans
      (List.perm_insertionSort _ _).symm
  rw [List.eq_of_perm_of_sorted hperm
    (List.sorted_insertionSort _ _) (List.sorted_insertionSort _ _)]

lemma is_straight_perm {l₁ l₂ : List Card} (hp : l₁.Perm l₂) :
    (Hand.new l₁).is_straight = (Hand.new l₂).is_straight := by
  have hlen := hp.length_eq
  have hvals := sorted_values_perm hp
  unfold Hand.is_straight
  rw [show (Hand.new l₁).cards = l₁ from rfl, show (Hand.new l₂).cards = l₂ from rfl,
    hlen, hvals]

lemma rank_count_perm {l₁ l₂ : List Card} (hp : l₁.Perm l₂) :
    (Hand.new l₁).rank_count = (Hand.new l₂).rank_count :=
  funext fun _r => hp.countP_eq _

/-- Claim C4: hand evaluation is invariant under permutation of the input
    order — it depends only on the multiset of cards. -/
theorem C4_evaluate_perm_invariant (l₁ l₂ : List Card) (hp : l₁.Perm l₂) :
    (Hand.new l₁).evaluate = (Hand.new l₂).evaluate := by
  have hempty : l₁.isEmpty = l₂.isEmpty := isEmpty_perm hp
  have hflush := is_flush_perm hp
  have hstraight := is_straight_perm hp
  have hcounts := rank_count_perm hp
  unfold Hand.evaluate Hand.check_special_hands Hand.check_standard_hands
    Hand.max_rank_count Hand.pair_count Hand.is_full_house
  rw [show (Hand.new l₁).cards = l₁ from rfl, show (Hand.new l₂).cards = l₂ from rfl,
    hempty, hflush, hstraight, hcounts]

/-- Witness for C4 at a concrete permutation pair. -/
theorem C4_witness :
    ([Card.new Rank.Ace Suit.Hearts, Card.new Rank.King Suit.Spades].Perm
      [Card.new Rank.King Suit.Spades, Card.new Rank.Ace Suit.Hearts]) ∧
    (Hand.new [Card.new Rank.Ace Suit.Hearts, Card.new Rank.King Suit.Spades]).evaluate =
      (Hand.new [Card.new Rank.King Suit.Spades, Card.new Rank.Ace Suit.Hearts]).evaluate :=
  ⟨by decide, C4_evaluate_perm_invariant _ _ (by decide)⟩

/-- Claim C10: a nonempty hand of fewer than five cards always classifies as
    one of HighCard, Pair, TwoPair, ThreeOfAKind or FourOfAKind — never as a
    straight-, flush- or five-based type. -/
theorem C10_short_hand_classification (cards : List Card) (hne : cards ≠ [])
    (hl : cards.length < 5) :
    (Hand.new cards).evaluate ∈
      [HandType.HighCard, HandType.Pair, HandType.TwoPair,
       HandType.ThreeOfAKind, HandType.FourOfAKind] := by
  have hf : (Hand.new cards).is_flush = false := is_flush_false_of_short (by simpa)
  have hs : (Hand.new cards).is_straight = false :=
    is_straight_false_of_short (by simpa)
  have hm : (Hand.new cards).max_rank_count < 5 := by
    have := max_rank_count_le_length (Hand.new cards)
    simp only [Hand.new_cards] at this
    omega
  have hfh : (Hand.new cards).is_full_house = false := by
    cases hcase : (Hand.new cards).is_full_house with
    | false => rfl
    | true =>
        have := is_full_house_length hcase
        simp only [Hand.new_cards] at this
        omega
  have hne' : cards.isEmpty = false := by
    cases cards with
    | nil => exact absurd rfl hne
    | cons a t => rfl
  have hm5 : (decide (5 ≤ (Hand.new cards).max_rank_count)) = false :=
    decide_eq_false (by omega)
  unfold Hand.evaluate Hand.check_special_hands Hand.check_standard_hands
  rw [show (Hand.new cards).cards = cards from rfl]
  simp only [hf, hs, hfh, hne', hm5, Bool.and_false, Bool.false_and,
    Bool.false_eq_true, if_false]
  rw [if_neg (show ¬ (Hand.new cards).max_rank_count ≥ 5 from by omega)]
  repeat' split
  all_goals simp_all

/-- Witness for C10 at a concrete three-card input. -/
theorem C10_witness :
    ([Card.new Rank.Ace Suit.Hearts, Card.new Rank.Ace Suit.Spades,
        Card.new Rank.King Suit.Hearts] ≠ ([] : List Card)) ∧
    ([Card.new Rank.Ace Suit.Hearts, Card.new Rank.Ace Suit.Spades,
        Card.new Rank.King Suit.Hearts].length < 5) ∧
    (Hand.new [Card.new Rank.Ace Suit.Hearts, Card.new Rank.Ace Suit.Spades,
        Card.new Rank.King Suit.Hearts]).evaluate ∈
      [HandType.HighCard, HandType.Pair, HandType.TwoPair,
       HandType.ThreeOfAKind, HandType.FourOfAKind] :=
  ⟨by decide, by decide,
    C10_short_hand_classification _ (by decide) (by decide)⟩

lemma rank_count_eq_count_map (cards : List Card) (r : Rank) :
    (Hand.new cards).rank_count r = (cards.map Card.rank).count r := by
  unfold Hand.rank_count
  simp only [Hand.new_cards, List.count, List.countP_map]
  rfl

/-- Claim C5: a five-card hand that is both a flush and a straight always
    evaluates to StraightFlush (never to plain Flush or plain Straight). -/
theorem C5_straight_flush_precedence (cards : List Card)
    (h5 : cards.length = 5)
    (hf : (Hand.new cards).is_flush = true)
    (hs : (Hand.new cards).is_straight = true) :
    (Hand.new cards).evaluate = HandType.StraightFlush := by
  -- the straight check only passes once the sorted deduplicated value list
  -- still has at least five entries
  have hv5 : 5 ≤ (Hand.new cards).sorted_values.length := by
    by_contra hlt
    push_neg at hlt
    unfold Hand.is_straight at hs
    rw [if_neg (by simp [h5]), if_pos hlt] at hs
    exact Bool.false_ne_true hs
  -- with five cards this forces all five rank values to be distinct
  have hnd : (cards.map (fun c => c.rank.value)).Nodup := by
    have hperm :
        ((cards.map (fun c => c.rank.value)).insertionSort (· ≤ ·)).dedup.Perm
          (cards.map (fun c => c.rank.value)).dedup :=
      (List.perm_insertionSort _ _).dedup
    have hlen1 : (cards.map (fun c => c.rank.value)).dedup.length =
        (Hand.new cards).sorted_values.length := hperm.length_eq.symm
    have hsub := List.dedup_sublist (cards.map (fun c => c.rank.value))
    have hlenv : (cards.map (fun c => c.rank.value)).length = 5 := by
      simp [h5]
    exact List.dedup_eq_self.mp
      (hsub.eq_of_length (by have := hsub.length_le; omega))
  have hndr : (cards.map Card.rank).Nodup := by
    rw [show (fun c : Card => c.rank.value) = (Rank.value ∘ Card.rank) from rfl,
      ← List.map_map] at hnd
    exact hnd.of_map _
  have hcount : ∀ r, (Hand.new cards).rank_count r ≤ 1 := by
    intro r
    rw [rank_count_eq_count_map]
    exact List.nodup_iff_count_le_one.mp hndr r
  have hmax : (Hand.new cards).max_rank_count ≤ 1 := by
    refine foldr_max_le ?_
    intro x hx
    rcases List.mem_map.mp hx with ⟨r, _, rfl⟩
    exact hcount r
  have hfh : (Hand.new cards).is_full_house = false := by
    unfold Hand.is_full_house
    have h3 : (all_ranks.any
        (fun r => decide ((Hand.new cards).rank_count r = 3))) = false := by
      rw [List.any_eq_false]
      intro r _
      have := hcount r
      simp only [decide_eq_true_eq]
      omega
    rw [h3, Bool.false_and]
  have hne' : cards.isEmpty = false := by
    cases cards with
    | nil => simp at h5
    | cons a t => rfl
  have hd5 : (decide ((Hand.new cards).max_rank_count ≥ 5)) = false :=
    decide_eq_false (by omega)
  unfold Hand.evaluate Hand.check_special_hands Hand.check_standard_hands
  rw [show (Hand.new cards).cards = cards from rfl]
  simp only [hne', hf, hs, hfh, hd5, Bool.false_and, Bool.and_false,
    Bool.true_and, Bool.and_true, Bool.false_eq_true, if_false]
  rw [if_neg (show ¬ (Hand.new cards).max_rank_count ≥ 5 from by omega)]
  simp

/-- Witness for C5 at a concrete straight flush. -/
theorem C5_witness :
    ([Card.new Rank.Two Suit.Hearts, Card.new Rank.Three Suit.Hearts,
        Card.new Rank.Four Suit.Hearts, Card.new Rank.Five Suit.Hearts,
        Card.new Rank.Six Suit.Hearts].length = 5) ∧
    ((Hand.new [Card.new Rank.Two Suit.Hearts, Card.new Rank.Three Suit.Hearts,
        Card.new Rank.Four Suit.Hearts, Card.new Rank.Five Suit.Hearts,
        Card.new Rank.Six Suit.Hearts]).is_flush = true) ∧
    ((Hand.new [Card.new Rank.Two Suit.Hearts, Card.new Rank.Three Suit.Hearts,
        Card.new Rank.Four Suit.Hearts, Card.new Rank.Five Suit.Hearts,
        Card.new Rank.Six Suit.Hearts]).is_straight = true) ∧
    (Hand.new [Card.new Rank.Two Suit.Hearts, Card.new Rank.Three Suit.Hearts,
        Card.new Rank.Four Suit.Hearts, Card.new Rank.Five Suit.Hearts,
        Card.new Rank.Six Suit.Hearts]).evaluate = HandType.StraightFlush :=
  ⟨by decide, by decide, by decide,
    C5_straight_flush_precedence _ (by decide) (by decide) (by decide)⟩

/-! ## Helper lemmas about the score engine -/

lemma u32_saturating_add_signed_lt (u : Nat) (i : Int) :
    u32_saturating_add_signed u i < u32_mod := by
  unfold u32_saturating_add_signed u32_mod
  have h1 : min (max ((u : Int) + i) 0) 4294967295 ≤ 4294967295 :=
    min_le_right _ _
  have := Int.toNat_le_toNat h1
  omega

lemma f32_as_u32_lt (q : ℚ) : f32_as_u32 q < u32_mod := by
  unfold f32_as_u32 u32_mod
  have h1 : min (max ⌊q⌋ 0) 4294967295 ≤ 4294967295 := min_le_right _ _
  have := Int.toNat_le_toNat h1
  omega

/-- Claim C1: every score result satisfies `score = chips * mult` exactly,
    for the final totals stored in the same result.  The `u64` product of the
    two `u32` totals can never reach the `u64` modulus. -/
theorem C1_score_eq_chips_mul_mult (jokers : List Joker) (hand : Hand) :
    (ScoreCalculator.calculate jokers hand).score =
      (ScoreCalculator.calculate jokers hand).chips *
        (ScoreCalculator.calculate jokers hand).mult := by
  show (total_chips_calc jokers hand * final_mult_calc jokers hand) % u64_mod =
    total_chips_calc jokers hand * final_mult_calc jokers hand
  apply Nat.mod_eq_of_lt
  have h1 : total_chips_calc jokers hand < u32_mod :=
    u32_saturating_add_signed_lt _ _
  have h2 : final_mult_calc jokers hand < u32_mod :=
    f32_as_u32_lt _
  calc total_chips_calc jokers hand * final_mult_calc jokers hand
      < u32_mod * u32_mod := by
        exact Nat.mul_lt_mul_of_lt_of_le h1 (Nat.le_of_lt h2) (by norm_num [u32_mod])
    _ = u64_mod := by norm_num [u32_mod, u64_mod]

/-- Claim C9: a Stone-enhanced card contributes both its rank base chips
    (between 2 and 11) and the Stone bonus of 50 chips to the per-card pass;
    the rank chips are not suppressed. -/
theorem C9_stone_keeps_rank_chips (c : Card)
    (hst : c.enhancement = Enhancement.Stone)
    (hed : c.edition = Edition.None) :
    (calculate_card_bonuses [c]).1 = c.base_chips + 50 ∧
      2 ≤ c.base_chips ∧ c.base_chips ≤ 11 := by
  have hb : 2 ≤ c.base_chips ∧ c.base_chips ≤ 11 := by
    unfold Card.base_chips
    rcases c with ⟨rank, suit, enh, ed, sl⟩
    cases rank <;> simp
  refine ⟨?_, hb⟩
  unfold calculate_card_bonuses card_bonus_step
  simp only [List.foldl_cons, List.foldl_nil, hst, hed]
  simp only [u32_mod]
  omega

/-- Witness for C9 at a concrete Stone-enhanced king. -/
theorem C9_witness :
    ((Card.new Rank.King Suit.Hearts).with_enhancement Enhancement.Stone).enhancement
        = Enhancement.Stone ∧
    ((Card.new Rank.King Suit.Hearts).with_enhancement Enhancement.Stone).edition
        = Edition.None ∧
    (calculate_card_bonuses
        [(Card.new Rank.King Suit.Hearts).with_enhancement Enhancement.Stone]).1 =
      ((Card.new Rank.King Suit.Hearts).with_enhancement Enhancement.Stone).base_chips + 50 :=
  ⟨by decide, by decide,
    (C9_stone_keeps_rank_chips _ (by decide) (by decide)).1⟩

/-! ## Exact (unbounded) bonus sums, for reasoning about overflow -/

/-- Exact chip contribution of one card in the per-card pass, as an
    unbounded natural number. -/
def card_chip_contribution (c : Card) : Nat :=
  c.base_chips +
    (match c.enhancement with
     | Enhancement.Bonus => 30
     | Enhancement.Stone => 50
     | _ => 0) +
    (match c.edition with
     | Edition.Foil => 50
     | _ => 0)

/-- Exact mult contribution of one card in the per-card pass. -/
def card_mult_contribution (c : Card) : Nat :=
  (match c.enhancement with
   | Enhancement.Mult => 4
   | _ => 0) +
    (match c.edition with
     | Edition.Holographic => 10
     | _ => 0)

/-- Exact (unbounded) total of the per-card chip pass. -/
def exact_card_chips (cards : List Card) : Nat :=
  (cards.map card_chip_contribution).sum

/-- Exact (unbounded) total of the per-card mult pass. -/
def exact_card_mult (cards : List Card) : Nat :=
  (cards.map card_mult_contribution).sum

/-- Exact chip contribution of one joker in the per-joker pass. -/
def joker_chip_contribution (j : Joker) : Int :=
  j.kind.base_chips +
    (match j.edition with
     | JokerEdition.Foil => 50
     | _ => 0)

/-- Exact mult contribution of one joker in the per-joker pass. -/
def joker_mult_contribution (j : Joker) : Int :=
  j.kind.base_mult +
    (match j.edition with
     | JokerEdition.Holographic => 10
     | _ => 0)

/-- Exact (unbounded) total of the per-joker chip pass. -/
def exact_joker_chips (jokers : List Joker) : Int :=
  (jokers.map joker_chip_contribution).sum

/-- Exact (unbounded) total of the per-joker mult pass. -/
def exact_joker_mult (jokers : List Joker) : Int :=
  (jokers.map joker_mult_contribution).sum

/-- The total formula claimed by the specification, modelled from the spec's
    words: `saturating(base_chips + card_chips + joker_chips)` over the exact
    mathematical sum, clamped into `[0, u32::MAX]` with a zero floor and no
    wrap-around. -/
def spec_saturating_total (base card : Nat) (joker : Int) : Nat :=
  (min (max ((base : Int) + (card : Int) + joker) 0) 4294967295).toNat

lemma card_bonus_step_eq (cm : Nat × Nat) (c : Card) (hb : cm.2 < u32_mod) :
    card_bonus_step cm c =
      ((cm.1 + card_chip_contribution c) % u32_mod,
       (cm.2 + card_mult_contribution c) % u32_mod) := by
  rcases c with ⟨rank, suit, enh, ed, sl⟩
  unfold card_bonus_step card_chip_contribution card_mult_contribution
  cases enh <;> cases ed <;>
    simp only [Hand.new_cards] <;>
    refine Prod.ext ?_ ?_ <;>
    simp only [u32_mod] at * <;>
    omega

lemma calculate_card_bonuses_from (cards : List Card) :
    ∀ (a b : Nat), a < u32_mod → b < u32_mod →
      cards.foldl card_bonus_step (a, b) =
        ((a + exact_card_chips cards) % u32_mod,
         (b + exact_card_mult cards) % u32_mod) := by
  induction cards with
  | nil =>
      intro a b ha hb
      simp [exact_card_chips, exact_card_mult, Nat.mod_eq_of_lt ha,
        Nat.mod_eq_of_lt hb]
  | cons c t ih =>
      intro a b ha hb
      rw [List.foldl_cons, card_bonus_step_eq (a, b) c hb,
        ih _ _ (Nat.mod_lt _ (by norm_num [u32_mod])) (Nat.mod_lt _ (by norm_num [u32_mod]))]
      refine Prod.ext ?_ ?_ <;>
        simp [exact_card_chips, exact_card_mult, Nat.mod_add_mod, Nat.add_assoc]

lemma calculate_card_bonuses_eq (cards : List Card) :
    calculate_card_bonuses cards =
      (exact_card_chips cards % u32_mod, exact_card_mult cards % u32_mod) := by
  unfold calculate_card_bonuses
  rw [calculate_card_bonuses_from cards 0 0 (by norm_num [u32_mod]) (by norm_num [u32_mod])]
  simp

lemma wrap32_wrap32_add (a b : Int) : wrap32 (wrap32 a + b) = wrap32 (a + b) := by
  unfold wrap32
  omega

lemma wrap32_eq_self {z : Int} (h1 : -2147483648 ≤ z) (h2 : z < 2147483648) :
    wrap32 z = z := by
  unfold wrap32
  omega

lemma joker_bonus_step_eq (acc : Int × Int × ℚ) (j : Joker) :
    joker_bonus_step acc j =
      (wrap32 (acc.1 + joker_chip_contribution j),
       wrap32 (acc.2.1 + joker_mult_contribution j),
       acc.2.2 *
         (if j.edition = JokerEdition.Polychrome then (3 / 2 : ℚ) else 1)) := by
  rcases j with ⟨kind, ed, rar⟩
  unfold joker_bonus_step joker_chip_contribution joker_mult_contribution
  cases ed <;>
    refine Prod.ext ?_ (Prod.ext ?_ ?_) <;>
    simp [wrap32_wrap32_add, Int.add_assoc]

lemma calculate_joker_bonuses_from (jokers : List Joker) :
    ∀ (a b : Int) (m : ℚ),
      jokers.foldl joker_bonus_step (wrap32 a, wrap32 b, m) =
        (wrap32 (a + exact_joker_chips jokers),
         wrap32 (b + exact_joker_mult jokers),
         m * (3 / 2 : ℚ) ^
           (jokers.countP (fun j => decide (j.edition = JokerEdition.Polychrome)))) := by
  induction jokers with
  | nil =>
      intro a b m
      simp [exact_joker_chips, exact_joker_mult]
  | cons j t ih =>
      intro a b m
      rw [List.foldl_cons, joker_bonus_step_eq]
      simp only [wrap32_wrap32_add]
      rw [ih (a + joker_chip_contribution j) (b + joker_mult_contribution j)]
      refine Prod.ext ?_ (Prod.ext ?_ ?_)
      · simp [exact_joker_chips, Int.add_assoc]
      · simp [exact_joker_mult, Int.add_assoc]
      · by_cases hp : j.edition = JokerEdition.Polychrome
        · simp [List.countP_cons, hp, pow_succ]
          ring
        · simp [List.countP_cons, hp]

lemma calculate_joker_bonuses_eq (jokers : List Joker) :
    calculate_joker_bonuses jokers =
      (wrap32 (exact_joker_chips jokers),
       wrap32 (exact_joker_mult jokers),
       (3 / 2 : ℚ) ^
         (jokers.countP (fun j => decide (j.edition = JokerEdition.Polychrome)))) := by
  unfold calculate_joker_bonuses
  have h0 : (0 : Int) = wrap32 0 := by unfold wrap32; rfl
  rw [show ((0 : Int), (0 : Int), (1 : ℚ)) = (wrap32 0, wrap32 0, (1 : ℚ)) from by
        rw [← h0],
      calculate_joker_bonuses_from jokers 0 0 1]
  simp

lemma joker_chip_contribution_nonneg (j : Joker) : 0 ≤ joker_chip_contribution j := by
  rcases j with ⟨kind, ed, rar⟩
  unfold joker_chip_contribution JokerKind.base_chips
  cases ed <;> simp

lemma joker_mult_contribution_nonneg (j : Joker) : 0 ≤ joker_mult_contribution j := by
  rcases j with ⟨kind, ed, rar⟩
  unfold joker_mult_contribution JokerKind.base_mult
  cases kind <;> cases ed <;> simp

lemma exact_joker_chips_nonneg (jokers : List Joker) : 0 ≤ exact_joker_chips jokers := by
  refine List.sum_nonneg ?_
  intro x hx
  rcases List.mem_map.mp hx with ⟨j, _, rfl⟩
  exact joker_chip_contribution_nonneg j

lemma exact_joker_mult_nonneg (jokers : List Joker) : 0 ≤ exact_joker_mult jokers := by
  refine List.sum_nonneg ?_
  intro x hx
  rcases List.mem_map.mp hx with ⟨j, _, rfl⟩
  exact joker_mult_contribution_nonneg j

lemma mem_all_ranks (r : Rank) : r ∈ all_ranks := by
  cases r <;> simp [all_ranks]

/-- Claim C6, amended: provided the unchecked `u32` accumulation of
    `base + card` bonuses and the unchecked `i32` joker accumulations do not
    overflow their machine ranges, the totals equal the saturating clamp of
    the exact sum `base + card + joker` into `[0, u32::MAX]` — never negative
    and never wrapped. -/
theorem C6_saturating_totals (jokers : List Joker) (hand : Hand)
    (hc : hand.evaluate.base_chips + exact_card_chips hand.cards < u32_mod)
    (hm : hand.evaluate.base_mult + exact_card_mult hand.cards < u32_mod)
    (hjc : exact_joker_chips jokers < 2147483648)
    (hjm : exact_joker_mult jokers < 2147483648) :
    total_chips_calc jokers hand =
      spec_saturating_total hand.evaluate.base_chips
        (exact_card_chips hand.cards) (exact_joker_chips jokers) ∧
    total_mult_calc jokers hand =
      spec_saturating_total hand.evaluate.base_mult
        (exact_card_mult hand.cards) (exact_joker_mult jokers) := by
  have hcb := calculate_card_bonuses_eq hand.cards
  have hjb := calculate_joker_bonuses_eq jokers
  have hwc : wrap32 (exact_joker_chips jokers) = exact_joker_chips jokers :=
    wrap32_eq_self (le_trans (by norm_num) (exact_joker_chips_nonneg jokers)) hjc
  have hwm : wrap32 (exact_joker_mult jokers) = exact_joker_mult jokers :=
    wrap32_eq_self (le_trans (by norm_num) (exact_joker_mult_nonneg jokers)) hjm
  constructor
  · unfold total_chips_calc
    rw [hcb, hjb]
    simp only
    rw [Nat.mod_eq_of_lt (show exact_card_chips hand.cards < u32_mod from by omega),
      Nat.mod_eq_of_lt hc, hwc]
    unfold u32_saturating_add_signed spec_saturating_total
    rw [Nat.cast_add]
  · unfold total_mult_calc
    rw [hcb, hjb]
    simp only
    rw [Nat.mod_eq_of_lt (show exact_card_mult hand.cards < u32_mod from by omega),
      Nat.mod_eq_of_lt hm, hwm]
    unfold u32_saturating_add_signed spec_saturating_total
    rw [Nat.cast_add]

/-- Witness for the amended C6 at a concrete pair of aces plus one baseline
    joker. -/
theorem C6_witness :
    ((Hand.new [Card.new Rank.Ace Suit.Hearts, Card.new Rank.Ace Suit.Spades]).evaluate.base_chips +
        exact_card_chips (Hand.new [Card.new Rank.Ace Suit.Hearts,
          Card.new Rank.Ace Suit.Spades]).cards < u32_mod) ∧
    ((Hand.new [Card.new Rank.Ace Suit.Hearts, Card.new Rank.Ace Suit.Spades]).evaluate.base_mult +
        exact_card_mult (Hand.new [Card.new Rank.Ace Suit.Hearts,
          Card.new Rank.Ace Suit.Spades]).cards < u32_mod) ∧
    (exact_joker_chips [Joker.new JokerKind.Joker] < 2147483648) ∧
    (exact_joker_mult [Joker.new JokerKind.Joker] < 2147483648) ∧
    total_chips_calc [Joker.new JokerKind.Joker]
        (Hand.new [Card.new Rank.Ace Suit.Hearts, Card.new Rank.Ace Suit.Spades]) =
      spec_saturating_total
        (Hand.new [Card.new Rank.Ace Suit.Hearts,
          Card.new Rank.Ace Suit.Spades]).evaluate.base_chips
        (exact_card_chips (Hand.new [Card.new Rank.Ace Suit.Hearts,
          Card.new Rank.Ace Suit.Spades]).cards)
        (exact_joker_chips [Joker.new JokerKind.Joker]) :=
  ⟨by decide, by decide, by decide, by decide,
    (C6_saturating_totals _ _ (by decide) (by decide) (by decide) (by decide)).1⟩

lemma rank_count_replicate (c : Card) (n : Nat) (r : Rank) :
    (Hand.new (List.replicate n c)).rank_count r =
      if c.rank = r then n else 0 := by
  unfold Hand.rank_count
  simp only [Hand.new_cards, List.countP_replicate]
  by_cases hcr : c.rank = r <;> simp [hcr]

lemma max_rank_count_replicate (c : Card) (n : Nat) :
    (Hand.new (List.replicate n c)).max_rank_count = n := by
  apply Nat.le_antisymm
  · apply foldr_max_le
    intro x hx
    rcases List.mem_map.mp hx with ⟨r, _, rfl⟩
    rw [rank_count_replicate]
    split <;> omega
  · apply le_foldr_max
    refine List.mem_map.mpr ⟨c.rank, mem_all_ranks _, ?_⟩
    rw [rank_count_replicate]
    simp

lemma is_flush_replicate (c : Card) {n : Nat} (h : 5 ≤ n) :
    (Hand.new (List.replicate n c)).is_flush = true := by
  unfold Hand.is_flush
  simp only [Hand.new_cards, List.length_replicate]
  rw [if_neg (by omega)]
  obtain ⟨m, rfl⟩ : ∃ m, n = m + 1 := ⟨n - 1, by omega⟩
  rw [List.replicate_succ]
  show (c :: List.replicate m c).all (fun card => decide (card.suit = c.suit)) = true
  rw [List.all_eq_true]
  intro x hx
  rcases List.mem_cons.mp hx with rfl | hmem
  · simp
  · simp [(List.mem_replicate.mp hmem).2]

lemma evaluate_replicate_flushfive (c : Card) {n : Nat} (h : 5 ≤ n) :
    (Hand.new (List.replicate n c)).evaluate = HandType.FlushFive := by
  have hflush := is_flush_replicate c h
  have hmax := max_rank_count_replicate c n
  have hne : (List.replicate n c).isEmpty = false := by
    obtain ⟨m, rfl⟩ : ∃ m, n = m + 1 := ⟨n - 1, by omega⟩
    rw [List.replicate_succ]
    rfl
  unfold Hand.evaluate Hand.check_special_hands
  simp only [Hand.new_cards, hne, hflush, hmax, Bool.and_true, Bool.false_eq_true,
    if_false]
  rw [if_pos (decide_eq_true (by omega))]

/-- A Stone, Foil ace: each copy contributes 11 + 50 + 50 = 111 chips to the
    per-card pass. -/
def stone_foil_ace : Card :=
  ((Card.new Rank.Ace Suit.Hearts).with_enhancement Enhancement.Stone).with_edition
    Edition.Foil

/-- A hand large enough to overflow the unchecked `u32` card-chip
    accumulation: forty million copies of a 111-chip card sum to
    4 440 000 000 chips, past `u32::MAX`. -/
def overflow_hand : Hand := Hand.new (List.replicate 40000000 stone_foil_ace)

/-- Counterexample to C6 as stated: on `overflow_hand` the engine's
    `total_chips` is the wrapped value 145 032 864, not the saturating clamp
    4 294 967 295 of the exact sum the claim promises. -/
theorem C6_counterexample :
    total_chips_calc [] overflow_hand = 145032864 ∧
    spec_saturating_total overflow_hand.evaluate.base_chips
        (exact_card_chips overflow_hand.cards) (exact_joker_chips []) = 4294967295 ∧
    total_chips_calc [] overflow_hand ≠
      spec_saturating_total overflow_hand.evaluate.base_chips
        (exact_card_chips overflow_hand.cards) (exact_joker_chips []) := by
  have heval : overflow_hand.evaluate = HandType.FlushFive :=
    evaluate_replicate_flushfive _ (by norm_num)
  have hexact : exact_card_chips overflow_hand.cards = 4440000000 := by
    unfold overflow_hand exact_card_chips
    simp only [Hand.new_cards, List.map_replicate, List.sum_replicate, smul_eq_mul]
    norm_num [card_chip_contribution, stone_foil_ace, Card.new,
      Card.with_enhancement, Card.with_edition, Card.base_chips]
  have hcb : (calculate_card_bonuses overflow_hand.cards).1 = 145032704 := by
    rw [calculate_card_bonuses_eq, hexact]
    norm_num [u32_mod]
  have h1 : total_chips_calc [] overflow_hand = 145032864 := by
    unfold total_chips_calc
    rw [heval, hcb, show (calculate_joker_bonuses []).1 = 0 from rfl]
    norm_num [HandType.base_chips, u32_mod, u32_saturating_add_signed]
    decide
  have h2 : spec_saturating_total overflow_hand.evaluate.base_chips
      (exact_card_chips overflow_hand.cards) (exact_joker_chips []) = 4294967295 := by
    rw [heval, hexact, show exact_joker_chips [] = 0 from rfl]
    norm_num [spec_saturating_total, HandType.base_chips]
    decide
  exact ⟨h1, h2, by rw [h1, h2]; norm_num⟩

/-! ## Simulator properties -/

/-- Claim C7: on a nonempty sorted score list, `percentile p` returns the
    element at index `floor((n - 1) * p)`; consequently `percentile 0` is the
    minimum (the first element), the `p = 1` index formula yields the maximum
    (the last element), and the statistics' `median` (as well as `min` and
    `max`) are exactly these percentiles. -/
theorem C7_percentile_index_formula (l : List Nat) (p : ℚ) (n : Nat)
    (hne : l ≠ []) (hs : List.Sorted (· ≤ ·) l) :
    percentile l p = l.getD (Int.toNat ⌊((l.length : ℚ) - 1) * p⌋) 0 ∧
    percentile l 0 = l.headD 0 ∧
    percentile l 1 = l.getLastD 0 ∧
    (calculate_statistics l n).median_score = percentile l (1 / 2) ∧
    (calculate_statistics l n).min_score = percentile l 0 ∧
    (calculate_statistics l n).max_score = percentile l 1 := by
  have hlen : 1 ≤ l.length := by
    cases l with
    | nil => exact absurd rfl hne
    | cons a t => simp
  have hie : l.isEmpty = false := by
    cases l with
    | nil => exact absurd rfl hne
    | cons a t => rfl
  have hformula : ∀ q : ℚ, percentile l q =
      l.getD (Int.toNat ⌊((l.length : ℚ) - 1) * q⌋) 0 := by
    intro q
    unfold percentile
    rw [if_neg (by simp [hie])]
  have hzero : percentile l 0 = l.headD 0 := by
    rw [hformula]
    cases l with
    | nil => exact absurd rfl hne
    | cons a t => simp
  have hone : percentile l 1 = l.getLastD 0 := by
    rw [hformula, mul_one]
    have hcast : (l.length : ℚ) - 1 = ((l.length - 1 : Nat) : ℚ) := by
      push_cast [hlen]
      ring
    rw [hcast, Int.floor_natCast]
    rw [List.getD_eq_getElem?_getD, List.getLastD_eq_getLast?,
      List.getLast?_eq_getElem?]
    simp
  have hsort : l.insertionSort (· ≤ ·) = l := hs.insertionSort_eq
  refine ⟨hformula p, hzero, hone, ?_, ?_, ?_⟩
  · unfold calculate_statistics
    rw [hsort]
  · unfold calculate_statistics
    rw [hsort, hzero]
  · unfold calculate_statistics
    rw [hsort, hone]

/-- Witness for C7 at the sorted list `[1, 2, 3]` and `p = 1/2`. -/
theorem C7_witness :
    (([1, 2, 3] : List Nat) ≠ []) ∧
    (List.Sorted (· ≤ ·) ([1, 2, 3] : List Nat)) ∧
    (percentile [1, 2, 3] 0 = ([1, 2, 3] : List Nat).headD 0 ∧
      percentile [1, 2, 3] 1 = ([1, 2, 3] : List Nat).getLastD 0) :=
  ⟨by decide, by decide,
    ⟨(C7_percentile_index_formula [1, 2, 3] (1 / 2) 3 (by decide) (by decide)).2.1,
     (C7_percentile_index_formula [1, 2, 3] (1 / 2) 3 (by decide) (by decide)).2.2.1⟩⟩

/-- Claim C8: given a seed, the simulation is a deterministic function of its
    configuration — the ambient entropy (consumed only by the unseeded arm of
    `create_rng`) cannot influence any field of the result. -/
theorem C8_simulate_deterministic (jokers : List Joker) (e₁ e₂ : Nat)
    (config : SimulationConfig) (s : Nat) (hseed : config.seed = some s) :
    Simulator.simulate jokers e₁ config = Simulator.simulate jokers e₂ config := by
  unfold Simulator.simulate create_rng
  rw [hseed]

/-- Witness for C8 at a concrete seeded configuration and two different
    entropy values. -/
theorem C8_witness :
    (SimulationConfig.mk [Card.new Rank.Ace Suit.Hearts] 1 1 (some 42)).seed = some 42 ∧
    Simulator.simulate [] 0
        (SimulationConfig.mk [Card.new Rank.Ace Suit.Hearts] 1 1 (some 42)) =
      Simulator.simulate [] 99
        (SimulationConfig.mk [Card.new Rank.Ace Suit.Hearts] 1 1 (some 42)) :=
  ⟨rfl, C8_simulate_deterministic [] 0 99 _ 42 rfl⟩

/-! ## Helper lemmas about the solver -/

lemma generate_combinations_recursive_eq (size : Nat) :
    ∀ (cards current : List Card), current.length ≤ size →
      generate_combinations_recursive size cards current =
        (sub_combos (size - current.length) cards).map (fun c => current ++ c) := by
  intro cards
  induction cards with
  | nil =>
      intro current hle
      by_cases heq : current.length = size
      · rw [generate_combinations_recursive, if_pos heq, heq, Nat.sub_self]
        simp [sub_combos]
      · rw [generate_combinations_recursive, if_neg heq]
        obtain ⟨m, hm⟩ : ∃ m, size - current.length = m + 1 :=
          ⟨size - current.length - 1, by omega⟩
        rw [hm]
        simp [sub_combos]
  | cons c rest ih =>
      intro current hle
      by_cases heq : current.length = size
      · rw [generate_combinations_recursive, if_pos heq, heq, Nat.sub_self]
        simp [sub_combos]
      · rw [generate_combinations_recursive, if_neg heq,
          ih (current ++ [c]) (by simp; omega), ih current hle]
        obtain ⟨m, hm⟩ : ∃ m, size - current.length = m + 1 :=
          ⟨size - current.length - 1, by omega⟩
        have hm2 : size - (current ++ [c]).length = m := by simp; omega
        rw [hm, hm2, sub_combos]
        simp [List.map_map, Function.comp_def]

lemma generate_combinations_eq (cards : List Card) (size : Nat) :
    generate_combinations cards size = sub_combos size cards := by
  unfold generate_combinations
  rw [generate_combinations_recursive_eq size cards [] (by simp)]
  simp

lemma mem_sub_combos {α : Type} :
    ∀ (k : Nat) (l c : List α), c ∈ sub_combos k l ↔ c.Sublist l ∧ c.length = k := by
  intro k l
  induction l generalizing k with
  | nil =>
      intro c
      cases k with
      | zero =>
          simp only [sub_combos, List.mem_singleton, List.sublist_nil]
          constructor
          · rintro rfl
            exact ⟨rfl, rfl⟩
          · rintro ⟨rfl, _⟩
            rfl
      | succ k =>
          simp only [sub_combos, List.not_mem_nil, false_iff, not_and,
            List.sublist_nil]
          rintro rfl
          simp
  | cons x xs ih =>
      intro c
      cases k with
      | zero =>
          simp only [sub_combos, List.mem_singleton]
          constructor
          · rintro rfl
            exact ⟨List.nil_sublist _, rfl⟩
          · rintro ⟨_, hlen⟩
            exact List.length_eq_zero.mp hlen
      | succ k =>
          simp only [sub_combos, List.mem_append, List.mem_map]
          constructor
          · rintro (⟨c', hc', rfl⟩ | hmem)
            · obtain ⟨hsub, hlen⟩ := (ih k c').mp hc'
              exact ⟨hsub.cons₂ x, by simp [hlen]⟩
            · obtain ⟨hsub, hlen⟩ := (ih (k + 1) c).mp hmem
              exact ⟨hsub.cons x, hlen⟩
          · rintro ⟨hsub, hlen⟩
            cases hsub with
            | cons _ hsub' => exact Or.inr ((ih (k + 1) c).mpr ⟨hsub', hlen⟩)
            | cons₂ _ hsub' =>
                rename_i c'
                exact Or.inl ⟨c', (ih k c').mpr ⟨hsub', by simpa using hlen⟩, rfl⟩

lemma sub_combos_map {α β : Type} (f : α → β) :
    ∀ (k : Nat) (l : List α),
      sub_combos k (l.map f) = (sub_combos k l).map (List.map f) := by
  intro k l
  induction l generalizing k with
  | nil => cases k <;> simp [sub_combos]
  | cons x xs ih =>
      cases k with
      | zero => simp [sub_combos]
      | succ k =>
          simp only [List.map_cons, sub_combos, ih, List.map_append,
            List.map_map]
          rfl

lemma range_map_getD {α : Type} (l : List α) (d : α) :
    (List.range l.length).map (fun i => l.getD i d) = l := by
  induction l with
  | nil => rfl
  | cons a t ih =>
      rw [List.length_cons, List.range_succ_eq_map, List.map_cons,
        List.map_map]
      simp only [List.getD_cons_zero, Function.comp_def, Nat.succ_eq_add_one,
        List.getD_cons_succ]
      rw [ih]

lemma sub_combos_lex_sorted :
    ∀ (k : Nat) (l : List Nat), List.Sorted (· < ·) l →
      List.Pairwise (List.Lex (· < ·)) (sub_combos k l) := by
  intro k l
  induction l generalizing k with
  | nil => cases k <;> simp [sub_combos]
  | cons x xs ih =>
      intro hs
      cases k with
      | zero => simp [sub_combos]
      | succ k =>
          rw [sub_combos, List.pairwise_append]
          refine ⟨?_, ih (k + 1) hs.of_cons, ?_⟩
          · rw [List.pairwise_map]
            exact (ih k hs.of_cons).imp (fun h => List.Lex.cons h)
          · intro a ha b hb
            rcases List.mem_map.mp ha with ⟨a', _, rfl⟩
            obtain ⟨hbsub, hblen⟩ := (mem_sub_combos (k + 1) xs b).mp hb
            cases b with
            | nil => simp at hblen
            | cons y b' =>
                have hy : y ∈ xs := hbsub.subset (List.mem_cons_self y b')
                exact List.Lex.rel (List.rel_of_sorted_cons hs y hy)

/-- The stable sort leaves the relative order of equal-score entries
    unchanged: filtering any score class out of the sorted list returns the
    enumeration-ordered entries of that class. -/
lemma solve_sorted_filter_key (l : List (Hand × ScoreResult)) (key : Nat) :
    (l.insertionSort score_ge).filter (fun p => p.2.score == key) =
      l.filter (fun p => p.2.score == key) := by
  have hpair : (l.filter (fun p => p.2.score == key)).Pairwise score_ge := by
    refine List.pairwise_of_forall_mem_list ?_
    intro a ha b hb
    have ha' := (List.mem_filter.mp ha).2
    have hb' := (List.mem_filter.mp hb).2
    simp only [beq_iff_eq] at ha' hb'
    unfold score_ge
    omega
  have hsub : (l.filter (fun p => p.2.score == key)).Sublist
      (l.insertionSort score_ge) :=
    List.sublist_insertionSort hpair (List.filter_sublist l)
  have hsub2 : (l.filter (fun p => p.2.score == key)).Sublist
      ((l.insertionSort score_ge).filter (fun p => p.2.score == key)) := by
    have h2 := hsub.filter (fun p => p.2.score == key)
    rwa [List.filter_filter, show (fun a : Hand × ScoreResult =>
        (a.2.score == key) && (a.2.score == key)) = fun a => a.2.score == key from
      funext fun a => Bool.and_self _] at h2
  have hperm : ((l.insertionSort score_ge).filter
      (fun p => p.2.score == key)).Perm (l.filter (fun p => p.2.score == key)) :=
    (List.perm_insertionSort score_ge l).filter _
  exact (hsub2.eq_of_length hperm.length_eq.symm).symm

/-- Claim C2: on a nonempty card list the solver returns some best score, at
    most three alternatives, and the best score dominates every
    alternative. -/
theorem C2_solver_best_dominates (jokers : List Joker) (cards : List Card)
    (hne : cards ≠ []) :
    ∃ s, (Solver.solve jokers cards).best_score = some s ∧
      (Solver.solve jokers cards).alternatives.length ≤ 3 ∧
      ∀ p ∈ (Solver.solve jokers cards).alternatives, p.2.score ≤ s.score := by
  have hie : cards.isEmpty = false := by
    cases cards with
    | nil => exact absurd rfl hne
    | cons a t => rfl
  obtain ⟨c, rest, rfl⟩ : ∃ c rest, cards = c :: rest := by
    cases cards with
    | nil => exact absurd rfl hne
    | cons a t => exact ⟨a, t, rfl⟩
  have hmem : (Hand.new [c],
      ScoreCalculator.calculate jokers (Hand.new [c])) ∈
        solve_results jokers (c :: rest) := by
    unfold solve_results
    refine List.mem_flatMap.mpr ⟨0, List.mem_range.mpr (by simp), ?_⟩
    refine List.mem_map.mpr ⟨[c], ?_, rfl⟩
    rw [generate_combinations_eq]
    exact (mem_sub_combos 1 (c :: rest) [c]).mpr
      ⟨(List.nil_sublist rest).cons₂ c, rfl⟩
  have hne_res : solve_results jokers (c :: rest) ≠ [] :=
    List.ne_nil_of_mem hmem
  have hne_sorted : solve_sorted jokers (c :: rest) ≠ [] := by
    intro hnil
    have := (List.perm_insertionSort score_ge
      (solve_results jokers (c :: rest))).length_eq
    rw [show solve_sorted jokers (c :: rest) =
        (solve_results jokers (c :: rest)).insertionSort score_ge from rfl] at hnil
    rw [hnil] at this
    exact hne_res (List.length_eq_zero.mp this.symm)
  obtain ⟨hd, tl, hcons⟩ : ∃ hd tl,
      solve_sorted jokers (c :: rest) = hd :: tl := by
    cases hsv : solve_sorted jokers (c :: rest) with
    | nil => exact absurd hsv hne_sorted
    | cons hd tl => exact ⟨hd, tl, rfl⟩
  have hsort : List.Sorted score_ge (solve_sorted jokers (c :: rest)) :=
    List.sorted_insertionSort score_ge _
  rw [hcons] at hsort
  refine ⟨hd.2, ?_, ?_, ?_⟩
  · unfold Solver.solve
    rw [if_neg (by simp [hie]), hcons]
    rfl
  · unfold Solver.solve
    rw [if_neg (by simp [hie])]
    simp only
    exact List.length_take_le _ _
  · intro p hp
    unfold Solver.solve at hp
    rw [if_neg (by simp [hie]), hcons] at hp
    simp only [List.drop_succ_cons, List.drop_zero] at hp
    exact List.rel_of_sorted_cons hsort p (List.mem_of_mem_take hp)

/-- Witness for C2 at a concrete three-card input. -/
theorem C2_witness :
    ([Card.new Rank.Ace Suit.Hearts, Card.new Rank.Ace Suit.Spades,
        Card.new Rank.King Suit.Hearts] ≠ ([] : List Card)) ∧
    (∃ s, (Solver.solve [] [Card.new Rank.Ace Suit.Hearts,
        Card.new Rank.Ace Suit.Spades, Card.new Rank.King Suit.Hearts]).best_score
          = some s ∧
      (Solver.solve [] [Card.new Rank.Ace Suit.Hearts,
        Card.new Rank.Ace Suit.Spades,
        Card.new Rank.King Suit.Hearts]).alternatives.length ≤ 3 ∧
      ∀ p ∈ (Solver.solve [] [Card.new Rank.Ace Suit.Hearts,
        Card.new Rank.Ace Suit.Spades,
        Card.new Rank.King Suit.Hearts]).alternatives, p.2.score ≤ s.score) :=
  ⟨by decide, C2_solver_best_dominates [] _ (by decide)⟩

/-- Claim C3: the solver enumerates, for each size `k`, exactly the `k`-card
    sub-combinations of the input — the image of the sub-combinations of the
    source-index sequence `0, …, n-1`, listed in lexicographic order by index
    with the first index outermost — scores each in that order, stable-sorts
    the scored pairs by descending score (same multiset, descending order,
    and every equal-score class kept in enumeration order), and takes the
    best and the three alternatives from the front of the sorted list. -/
theorem C3_solver_enumeration_and_stable_sort (jokers : List Joker)
    (cards : List Card) :
    (∀ k, generate_combinations cards k =
        (sub_combos k (List.range cards.length)).map
          (fun idxs => idxs.map
            (fun i => cards.getD i (Card.new Rank.Two Suit.Hearts)))) ∧
    (∀ k idxs, idxs ∈ sub_combos k (List.range cards.length) ↔
        idxs.Sublist (List.range cards.length) ∧ idxs.length = k) ∧
    (∀ k, List.Pairwise (List.Lex (· < ·))
        (sub_combos k (List.range cards.length))) ∧
    solve_results jokers cards =
      (List.range (min 5 cards.length)).flatMap
        (fun i => (generate_combinations cards (i + 1)).map
          (fun combo =>
            (Hand.new combo, ScoreCalculator.calculate jokers (Hand.new combo)))) ∧
    List.Sorted score_ge (solve_sorted jokers cards) ∧
    (solve_sorted jokers cards).Perm (solve_results jokers cards) ∧
    (∀ key, (solve_sorted jokers cards).filter (fun p => p.2.score == key) =
        (solve_results jokers cards).filter (fun p => p.2.score == key)) ∧
    (Solver.solve jokers cards).best_score =
      (solve_sorted jokers cards).head?.map Prod.snd ∧
    (Solver.solve jokers cards).alternatives =
      ((solve_sorted jokers cards).drop 1).take 3 := by
  refine ⟨?_, ?_, ?_, rfl, List.sorted_insertionSort score_ge _,
    List.perm_insertionSort score_ge _, ?_, ?_, ?_⟩
  · intro k
    rw [generate_combinations_eq]
    conv_lhs =>
      rw [show cards = (List.range cards.length).map
        (fun i => cards.getD i (Card.new Rank.Two Suit.Hearts)) from
        (range_map_getD cards _).symm]
    rw [sub_combos_map]
  · intro k idxs
    exact mem_sub_combos k (List.range cards.length) idxs
  · intro k
    exact sub_combos_lex_sorted k _ (List.sorted_lt_range cards.length)
  · intro key
    exact solve_sorted_filter_key _ key
  · cases cards with
    | nil => rfl
    | cons c rest =>
        unfold Solver.solve
        rw [if_neg (by simp)]
  · cases cards with
    | nil => rfl
    | cons c rest =>
        unfold Solver.solve
        rw [if_neg (by simp)]

end Jimbo
